import Mathlib

/-!
Verification of the per-frame reframing engine of the video-intelligent-resizer
repository (scripts/batch_reframe_track_yolo.py, with near-identical copies of
the shared helpers in scripts/batch_reframe_track.py).

The Python source is embedded shallowly:
* `_clamp` / `_compute_crop_window` become pure functions over a linear ordered
  field with a floor (instantiated at `ℚ` for executable checks and at `ℝ`
  inside the pipeline); Python's `round` is modelled by Mathlib's `round`.
* `Ema.update` becomes `emaStep`, explicit state passing of the optional
  running value.
* `_apply_pan_cap` becomes `applyPanCap` over `ℝ` (it needs `Real.sqrt`,
  mirroring `math.hypot`).
* the detector / tracker calls inside `reframe_video`'s frame loop are
  oracles: each frame carries the result the external detector would return if
  invoked and the result the external tracker update would return if invoked;
  `locateStep` reproduces the branch structure of the loop body and records
  which of the two externals were actually invoked.
* `reframeStep` / `runPipe` thread the loop state (tracker handle, EMA running
  value, previous capped center) exactly as the `while` loop does.
* `_has_audio` / `_remux_audio` are modelled over oracles for the outcome of
  the external `ffprobe` / `ffmpeg` subprocesses: `none` models a raised
  exception (for the probe) or a failed encoder invocation (for the remux),
  `some` models success with the produced payload.
-/

namespace Resizer

/-- Python `_clamp(v, lo, hi) = max(lo, min(hi, v))`, used on integer pixel
coordinates. -/
def clamp (v lo hi : ℤ) : ℤ := max lo (min hi v)

/-- Python `_compute_crop_window(frame_w, frame_h, target_ratio, center)`
(scripts/batch_reframe_track_yolo.py lines 49-62, identical in
batch_reframe_track.py lines 70-83).  Python's `int(round(x))` on the float
expressions is modelled by `round : K → ℤ`. -/
def computeCropWindow {K : Type} [LinearOrderedField K] [FloorRing K]
    (fw fh : ℤ) (targetRatio : K) (center : K × K) : ℤ × ℤ × ℤ × ℤ :=
  let srcRatio : K := (fw : K) / (fh : K)
  let cw : ℤ := if srcRatio > targetRatio then round ((fh : K) * targetRatio) else fw
  let ch : ℤ := if srcRatio > targetRatio then fh else round ((fw : K) / targetRatio)
  let x0 : ℤ := clamp (round (center.1 - (cw : K) / 2)) 0 (fw - cw)
  let y0 : ℤ := clamp (round (center.2 - (ch : K) / 2)) 0 (fh - ch)
  (x0, y0, cw, ch)

lemma clamp_bounds {lo hi : ℤ} (v : ℤ) (h : lo ≤ hi) :
    lo ≤ clamp v lo hi ∧ clamp v lo hi ≤ hi := by
  unfold clamp
  constructor
  · exact le_max_left _ _
  · exact max_le h (min_le_left _ _)

section RoundFacts

variable {K : Type} [LinearOrderedField K] [FloorRing K]

lemma round_le_round {x y : K} (h : x ≤ y) : round x ≤ round y := by
  rw [round_eq, round_eq]
  exact Int.floor_le_floor (by linarith)

lemma round_nonneg {x : K} (h : 0 ≤ x) : 0 ≤ round x := by
  have := round_le_round h
  simpa using this

lemma round_le_int {x : K} {n : ℤ} (h : x ≤ (n : K)) : round x ≤ n := by
  have := round_le_round h
  simpa [round_intCast] using this

end RoundFacts

section CropFacts

variable {K : Type} [LinearOrderedField K] [FloorRing K]

/-- The crop dimensions are nonnegative and never exceed the frame
dimensions. -/
lemma crop_dims_bounds (fw fh : ℤ) (tr : K) (c : K × K)
    (hfw : 0 < fw) (hfh : 0 < fh) (htr : 0 < tr) :
    0 ≤ (computeCropWindow fw fh tr c).2.2.1 ∧
      (computeCropWindow fw fh tr c).2.2.1 ≤ fw ∧
      0 ≤ (computeCropWindow fw fh tr c).2.2.2 ∧
      (computeCropWindow fw fh tr c).2.2.2 ≤ fh := by
  have hfwK : (0 : K) < (fw : K) := by exact_mod_cast hfw
  have hfhK : (0 : K) < (fh : K) := by exact_mod_cast hfh
  unfold computeCropWindow
  by_cases hcase : (fw : K) / (fh : K) > tr
  · simp only [hcase, if_pos]
    refine ⟨round_nonneg (by positivity), ?_, le_of_lt hfh, le_refl _⟩
    · have hlt : (fh : K) * tr < (fw : K) := by
        rw [gt_iff_lt, lt_div_iff₀ hfhK] at hcase
        linarith [hcase]
      exact round_le_int (le_of_lt hlt)
  · simp only [hcase, if_neg, if_false]
    refine ⟨le_of_lt hfw, le_refl _, round_nonneg (by positivity), ?_⟩
    · have hle : (fw : K) / tr ≤ (fh : K) := by
        rw [gt_iff_lt, not_lt, div_le_iff₀ hfhK] at hcase
        rw [div_le_iff₀ htr]
        linarith [hcase]
      exact round_le_int hle

lemma crop_cw (fw fh : ℤ) (tr : K) (c : K × K) :
    (computeCropWindow fw fh tr c).2.2.1 =
      if (fw : K) / (fh : K) > tr then round ((fh : K) * tr) else fw := rfl

lemma crop_ch (fw fh : ℤ) (tr : K) (c : K × K) :
    (computeCropWindow fw fh tr c).2.2.2 =
      if (fw : K) / (fh : K) > tr then fh else round ((fw : K) / tr) := rfl

lemma crop_x0 (fw fh : ℤ) (tr : K) (c : K × K) :
    (computeCropWindow fw fh tr c).1 =
      clamp (round (c.1 - ((computeCropWindow fw fh tr c).2.2.1 : K) / 2)) 0
        (fw - (computeCropWindow fw fh tr c).2.2.1) := rfl

lemma crop_y0 (fw fh : ℤ) (tr : K) (c : K × K) :
    (computeCropWindow fw fh tr c).2.1 =
      clamp (round (c.2 - ((computeCropWindow fw fh tr c).2.2.2 : K) / 2)) 0
        (fh - (computeCropWindow fw fh tr c).2.2.2) := rfl

end CropFacts

/-- C1: for every positive frame size, positive target ratio and any center,
`_compute_crop_window` follows the cover policy (wide source: height = frame
height, width = round(frame_h * ratio); otherwise width = frame width, height
= round(frame_w / ratio)), the produced dimensions are within one pixel of
exact real dimensions whose ratio is `target_ratio`, and the window lies fully
inside the frame. -/
theorem crop_window_cover_spec (fw fh : ℤ) (tr cx cy : ℚ)
    (hfw : 0 < fw) (hfh : 0 < fh) (htr : 0 < tr) :
    ((fw : ℚ) / (fh : ℚ) > tr →
        (computeCropWindow fw fh tr (cx, cy)).2.2.2 = fh ∧
        (computeCropWindow fw fh tr (cx, cy)).2.2.1 = round ((fh : ℚ) * tr)) ∧
    (¬ ((fw : ℚ) / (fh : ℚ) > tr) →
        (computeCropWindow fw fh tr (cx, cy)).2.2.1 = fw ∧
        (computeCropWindow fw fh tr (cx, cy)).2.2.2 = round ((fw : ℚ) / tr)) ∧
    (∃ wr hr : ℚ, 0 < hr ∧ wr / hr = tr ∧
        |((computeCropWindow fw fh tr (cx, cy)).2.2.1 : ℚ) - wr| ≤ 1 ∧
        |((computeCropWindow fw fh tr (cx, cy)).2.2.2 : ℚ) - hr| ≤ 1) ∧
    (0 ≤ (computeCropWindow fw fh tr (cx, cy)).1 ∧
        (computeCropWindow fw fh tr (cx, cy)).1 +
          (computeCropWindow fw fh tr (cx, cy)).2.2.1 ≤ fw ∧
      0 ≤ (computeCropWindow fw fh tr (cx, cy)).2.1 ∧
        (computeCropWindow fw fh tr (cx, cy)).2.1 +
          (computeCropWindow fw fh tr (cx, cy)).2.2.2 ≤ fh) := by
  obtain ⟨hcw0, hcwle, hch0, hchle⟩ :=
    crop_dims_bounds fw fh tr (cx, cy) hfw hfh htr
  have hfhQ : ((fh : ℚ)) ≠ 0 := by positivity
  have hfwQ : ((fw : ℚ)) ≠ 0 := by positivity
  refine ⟨?_, ?_, ?_, ?_⟩
  · intro hcase
    rw [crop_ch, crop_cw, if_pos hcase, if_pos hcase]
    exact ⟨rfl, rfl⟩
  · intro hcase
    rw [crop_cw, crop_ch, if_neg hcase, if_neg hcase]
    exact ⟨rfl, rfl⟩
  · by_cases hcase : (fw : ℚ) / (fh : ℚ) > tr
    · refine ⟨(fh : ℚ) * tr, (fh : ℚ), by positivity,
        mul_div_cancel_left₀ tr hfhQ, ?_, ?_⟩
      · rw [crop_cw, if_pos hcase]
        have h := abs_sub_round ((fh : ℚ) * tr)
        rw [abs_sub_comm] at h
        linarith [h]
      · rw [crop_ch, if_pos hcase]
        simp
    · refine ⟨(fw : ℚ), (fw : ℚ) / tr, by positivity, ?_, ?_, ?_⟩
      · field_simp
      · rw [crop_cw, if_neg hcase]
        simp
      · rw [crop_ch, if_neg hcase]
        have h := abs_sub_round ((fw : ℚ) / tr)
        rw [abs_sub_comm] at h
        linarith [h]
  · have hx := clamp_bounds
      (round ((cx, cy).1 - ((computeCropWindow fw fh tr (cx, cy)).2.2.1 : ℚ) / 2))
      (show (0 : ℤ) ≤ fw - (computeCropWindow fw fh tr (cx, cy)).2.2.1 by
        linarith)
    have hy := clamp_bounds
      (round ((cx, cy).2 - ((computeCropWindow fw fh tr (cx, cy)).2.2.2 : ℚ) / 2))
      (show (0 : ℤ) ≤ fh - (computeCropWindow fw fh tr (cx, cy)).2.2.2 by
        linarith)
    rw [← crop_x0] at hx
    rw [← crop_y0] at hy
    exact ⟨hx.1, by linarith [hx.2], hy.1, by linarith [hy.2]⟩

/-- Witness for C1 at a concrete 1920x1080 frame, 9:16 target, centered. -/
theorem crop_window_cover_spec_witness :
    (computeCropWindow 1920 1080 ((9 : ℚ) / 16) (960, 540)).2.2.1 =
      round ((1080 : ℚ) * (9 / 16)) ∧
    0 ≤ (computeCropWindow 1920 1080 ((9 : ℚ) / 16) (960, 540)).1 ∧
    (computeCropWindow 1920 1080 ((9 : ℚ) / 16) (960, 540)).1 +
      (computeCropWindow 1920 1080 ((9 : ℚ) / 16) (960, 540)).2.2.1 ≤ 1920 := by
  have h := crop_window_cover_spec 1920 1080 ((9 : ℚ) / 16) 960 540
    (by decide) (by decide) (by norm_num)
  have hA := h.1 (by norm_num)
  exact ⟨hA.2, h.2.2.2.1, h.2.2.2.2.1⟩

/-- Python `Ema.update` (scripts/batch_reframe_track_yolo.py lines 35-45,
identical in batch_reframe_track.py lines 32-42): the optional running value
`self.v` is passed explicitly; the returned pair is (returned point, new
running value).  On the first call `self.v` is set to the input unchanged;
afterwards `self.v = alpha * x + (1 - alpha) * self.v` componentwise. -/
def emaStep {K : Type} [LinearOrderedField K]
    (alpha : K) (v : Option (K × K)) (x : K × K) : (K × K) × Option (K × K) :=
  match v with
  | none => (x, some x)
  | some w =>
      let r := (alpha * x.1 + (1 - alpha) * w.1, alpha * x.2 + (1 - alpha) * w.2)
      (r, some r)

/-- Feeding a list of points through `Ema.update` in order, returning the
final running value. -/
def emaFeed {K : Type} [LinearOrderedField K]
    (alpha : K) : Option (K × K) → List (K × K) → Option (K × K)
  | v, [] => v
  | v, x :: rest => emaFeed alpha (emaStep alpha v x).2 rest

/-- C5: for alpha in (0,1], the first `Ema.update` call returns the input
unchanged and stores it as the running value; every later call with input x
and running value v returns and stores alpha * x + (1 - alpha) * v. -/
theorem ema_update_spec (alpha : ℚ) (x v : ℚ × ℚ)
    (halpha : 0 < alpha ∧ alpha ≤ 1) :
    emaStep alpha none x = (x, some x) ∧
    emaStep alpha (some v) x =
      ((alpha * x.1 + (1 - alpha) * v.1, alpha * x.2 + (1 - alpha) * v.2),
        some (alpha * x.1 + (1 - alpha) * v.1, alpha * x.2 + (1 - alpha) * v.2)) :=
  ⟨rfl, rfl⟩

/-- Witness for C5 at alpha = 1/2, x = (4, 8), v = (0, 2). -/
theorem ema_update_spec_witness :
    (0 < (1 : ℚ) / 2 ∧ (1 : ℚ) / 2 ≤ 1) ∧
    emaStep ((1 : ℚ) / 2) (some (0, 2)) (4, 8) = ((2, 5), some (2, 5)) := by
  have h := ema_update_spec ((1 : ℚ) / 2) (4, 8) (0, 2) (by norm_num)
  refine ⟨by norm_num, ?_⟩
  rw [h.2]
  norm_num

lemma emaFeed_replicate_fixed (alpha : ℚ) (p : ℚ × ℚ) (m : ℕ) :
    emaFeed alpha (some p) (List.replicate m p) = some p := by
  induction m with
  | zero => rfl
  | succ n ih =>
      have hstep : emaStep alpha (some p) p = (p, some p) := by
        unfold emaStep
        simp only
        congr 1 <;> [skip; congr 1] <;> exact Prod.ext (by ring) (by ring)
      simpa [List.replicate, emaFeed, hstep] using ih

/-- C6 counterexample: the claim quantifies over alpha in (0,1], but at
alpha = 1 the update after feeding [p, p] returns the new point q exactly
(here p = (0,0), q = (1,1)), so the smoothed value does jump directly to q. -/
theorem ema_no_jump_counterexample :
    (0 < (1 : ℚ) ∧ (1 : ℚ) ≤ 1) ∧ ((0 : ℚ), (0 : ℚ)) ≠ ((1 : ℚ), (1 : ℚ)) ∧
    (emaStep (1 : ℚ) (emaFeed (1 : ℚ) none [((0 : ℚ), (0 : ℚ)), (0, 0)])
        (1, 1)).1 = (1, 1) := by
  refine ⟨by norm_num, by norm_num, ?_⟩
  have h1 : emaFeed (1 : ℚ) none [((0 : ℚ), (0 : ℚ)), (0, 0)] = some (0, 0) := by
    simp [emaFeed, emaStep]
  rw [h1]
  unfold emaStep
  norm_num

/-- C6 amended: for alpha in (0,1) (the open interval: alpha = 1 is excluded,
since at alpha = 1 the update returns the new target exactly) and p ≠ q,
feeding p repeatedly keeps the smoothed value exactly at p, and after feeding
[p, p] a subsequent update with q never returns q itself. -/
theorem ema_fixed_point_no_jump (alpha : ℚ) (p q : ℚ × ℚ)
    (halpha : 0 < alpha ∧ alpha < 1) (hpq : p ≠ q) :
    (∀ n : ℕ, 1 ≤ n →
        emaFeed alpha none (List.replicate n p) = some p) ∧
    (emaStep alpha (emaFeed alpha none [p, p]) q).1 ≠ q := by
  have hfeed : ∀ m : ℕ, emaFeed alpha none (List.replicate (m + 1) p) = some p := by
    intro m
    have : emaFeed alpha none (List.replicate (m + 1) p) =
        emaFeed alpha (some p) (List.replicate m p) := by
      simp [List.replicate, emaFeed, emaStep]
    rw [this, emaFeed_replicate_fixed]
  constructor
  · intro n hn
    obtain ⟨m, rfl⟩ : ∃ m, n = m + 1 := ⟨n - 1, by omega⟩
    exact hfeed m
  · have h2 : emaFeed alpha none [p, p] = some p := by
      have := hfeed 1
      simpa [List.replicate] using this
    rw [h2]
    unfold emaStep
    simp only
    intro hcontra
    have hx : alpha * q.1 + (1 - alpha) * p.1 = q.1 :=
      congrArg Prod.fst hcontra
    have hy : alpha * q.2 + (1 - alpha) * p.2 = q.2 :=
      congrArg Prod.snd hcontra
    have hne : (1 : ℚ) - alpha ≠ 0 := by linarith [halpha.2]
    have hx' : p.1 = q.1 := by
      have : (1 - alpha) * (p.1 - q.1) = 0 := by ring_nf; ring_nf at hx; linarith
      rcases mul_eq_zero.mp this with h | h
      · exact absurd h hne
      · linarith
    have hy' : p.2 = q.2 := by
      have : (1 - alpha) * (p.2 - q.2) = 0 := by ring_nf; ring_nf at hy; linarith
      rcases mul_eq_zero.mp this with h | h
      · exact absurd h hne
      · linarith
    exact hpq (Prod.ext hx' hy')

/-- Witness for the amended C6 at alpha = 1/2, p = (0,0), q = (4,4), n = 3. -/
theorem ema_fixed_point_no_jump_witness :
    (0 < (1 : ℚ) / 2 ∧ (1 : ℚ) / 2 < 1) ∧
    emaFeed ((1 : ℚ) / 2) none
      (List.replicate 3 ((0 : ℚ), (0 : ℚ))) = some (0, 0) ∧
    (emaStep ((1 : ℚ) / 2)
        (emaFeed ((1 : ℚ) / 2) none [((0 : ℚ), (0 : ℚ)), (0, 0)])
        (4, 4)).1 ≠ (4, 4) := by
  have h := ema_fixed_point_no_jump ((1 : ℚ) / 2) (0, 0) (4, 4)
    (by norm_num) (by decide)
  exact ⟨by norm_num, h.1 3 (by norm_num), h.2⟩

/-- `math.hypot(dx, dy)` for the displacement from p to q, i.e. the Euclidean
distance between the two points. -/
noncomputable def ptDist (p q : ℝ × ℝ) : ℝ :=
  Real.sqrt ((q.1 - p.1) ^ 2 + (q.2 - p.2) ^ 2)

/-- Python `_apply_pan_cap(prev_center, target_center, pan_cap_px)`
(scripts/batch_reframe_track_yolo.py lines 102-111). -/
noncomputable def applyPanCap (prev : Option (ℝ × ℝ)) (target : ℝ × ℝ)
    (panCapPx : ℝ) : ℝ × ℝ :=
  match prev with
  | none => target
  | some p =>
      let dx := target.1 - p.1
      let dy := target.2 - p.2
      let d := ptDist p target
      if d ≤ panCapPx ∨ panCapPx ≤ 0 then target
      else
        let scale := panCapPx / d
        (p.1 + dx * scale, p.2 + dy * scale)

lemma ptDist_nonneg (p q : ℝ × ℝ) : 0 ≤ ptDist p q := Real.sqrt_nonneg _

lemma ptDist_self (p : ℝ × ℝ) : ptDist p p = 0 := by
  unfold ptDist
  simp

lemma applyPanCap_some (p t : ℝ × ℝ) (m : ℝ) :
    applyPanCap (some p) t m =
      if ptDist p t ≤ m ∨ m ≤ 0 then t
      else (p.1 + (t.1 - p.1) * (m / ptDist p t),
        p.2 + (t.2 - p.2) * (m / ptDist p t)) := rfl

lemma ptDist_scaled (p t : ℝ × ℝ) (s : ℝ) (hs : 0 ≤ s) :
    ptDist p (p.1 + (t.1 - p.1) * s, p.2 + (t.2 - p.2) * s) = ptDist p t * s := by
  show Real.sqrt
      ((p.1 + (t.1 - p.1) * s - p.1) ^ 2 + (p.2 + (t.2 - p.2) * s - p.2) ^ 2) =
    Real.sqrt ((t.1 - p.1) ^ 2 + (t.2 - p.2) ^ 2) * s
  rw [show (p.1 + (t.1 - p.1) * s - p.1) ^ 2 + (p.2 + (t.2 - p.2) * s - p.2) ^ 2
      = ((t.1 - p.1) ^ 2 + (t.2 - p.2) ^ 2) * s ^ 2 by ring]
  rw [Real.sqrt_mul (by positivity), Real.sqrt_sq_eq_abs, abs_of_nonneg hs]

/-- C2: the pan cap passes the target through when there is no previous
center, when the cap is nonpositive, or when the displacement already fits;
otherwise it moves the previous center toward the target by exactly the cap
along the same direction, so for a positive cap the output never lies more
than the cap away from the previous center. -/
theorem pan_cap_spec (p t : ℝ × ℝ) (m : ℝ) :
    applyPanCap none t m = t ∧
    (m ≤ 0 → applyPanCap (some p) t m = t) ∧
    (ptDist p t ≤ m → applyPanCap (some p) t m = t) ∧
    (0 < m → m < ptDist p t →
      applyPanCap (some p) t m =
        (p.1 + (t.1 - p.1) * (m / ptDist p t),
          p.2 + (t.2 - p.2) * (m / ptDist p t))) ∧
    (0 < m → ptDist p (applyPanCap (some p) t m) ≤ m) := by
  refine ⟨rfl, ?_, ?_, ?_, ?_⟩
  · intro hm
    rw [applyPanCap_some, if_pos (Or.inr hm)]
  · intro hd
    rw [applyPanCap_some, if_pos (Or.inl hd)]
  · intro hm hd
    rw [applyPanCap_some, if_neg]
    push_neg
    exact ⟨hd, hm⟩
  · intro hm
    by_cases hd : ptDist p t ≤ m
    · rw [applyPanCap_some, if_pos (Or.inl hd)]
      exact hd
    · push_neg at hd
      have hd0 : 0 < ptDist p t := lt_trans hm hd
      have hcap : applyPanCap (some p) t m =
          (p.1 + (t.1 - p.1) * (m / ptDist p t),
            p.2 + (t.2 - p.2) * (m / ptDist p t)) := by
        rw [applyPanCap_some, if_neg]
        push_neg
        exact ⟨hd, hm⟩
      rw [hcap, ptDist_scaled p t (m / ptDist p t) (le_of_lt (div_pos hm hd0))]
      rw [mul_comm, div_mul_cancel₀ m (ne_of_gt hd0)]

/-- Witness for C2 at p = (0,0): target (3,4) with cap 5 passes through
(distance 5); target (6,8) with cap 5 (distance 10) is rescaled to (3,4). -/
theorem pan_cap_spec_witness :
    applyPanCap (some ((0 : ℝ), (0 : ℝ))) (3, 4) 5 = (3, 4) ∧
    applyPanCap (some ((0 : ℝ), (0 : ℝ))) (6, 8) 5 = (3, 4) := by
  have hd1 : ptDist ((0 : ℝ), (0 : ℝ)) (3, 4) = 5 := by
    unfold ptDist
    rw [show ((3 : ℝ) - 0) ^ 2 + ((4 : ℝ) - 0) ^ 2 = 5 ^ 2 by norm_num]
    exact Real.sqrt_sq (by norm_num)
  have hd2 : ptDist ((0 : ℝ), (0 : ℝ)) (6, 8) = 10 := by
    unfold ptDist
    rw [show ((6 : ℝ) - 0) ^ 2 + ((8 : ℝ) - 0) ^ 2 = 10 ^ 2 by norm_num]
    exact Real.sqrt_sq (by norm_num)
  constructor
  · exact (pan_cap_spec ((0 : ℝ), (0 : ℝ)) (3, 4) 5).2.2.1 (by rw [hd1])
  · have h := (pan_cap_spec ((0 : ℝ), (0 : ℝ)) (6, 8) 5).2.2.2.1
      (by norm_num) (by rw [hd2]; norm_num)
    rw [h, hd2]
    norm_num

/-- Trace record of one iteration of the frame loop's locating section
(scripts/batch_reframe_track_yolo.py lines 196-212, identical branch
structure in batch_reframe_track.py lines 177-194): which externals were
invoked, the resulting optional box, and the tracker state before/after. -/
structure LocResult (β : Type) where
  frameIdx : ℕ
  trackerBefore : Bool
  detectCalled : Bool
  trackCalled : Bool
  box : Option β
  trackerAfter : Bool
deriving Repr, DecidableEq

/-- One iteration of the locating section.  `detRes` is the box the external
detector would return if invoked on this frame (`none` = no detection);
`trkRes` is the box the external tracker update would return if invoked
(`none` = update reports failure).  `fixedBox` is the `fixed_box` local
derived from the override.  `use_detect = (tracker is None) or
(frame_idx % max(1, detect_every) == 1)`. -/
def locateStep {β : Type} (fixedBox : Option β) (detectEvery : ℕ)
    (frameIdx : ℕ) (trackerBefore : Bool) (detRes trkRes : Option β) :
    LocResult β :=
  match fixedBox with
  | some b => ⟨frameIdx, trackerBefore, false, false, some b, trackerBefore⟩
  | none =>
      if trackerBefore = false ∨ frameIdx % max 1 detectEvery = 1 then
        match detRes with
        | some b => ⟨frameIdx, trackerBefore, true, false, some b, true⟩
        | none =>
            if trackerBefore then
              match trkRes with
              | some b => ⟨frameIdx, trackerBefore, true, true, some b, true⟩
              | none => ⟨frameIdx, trackerBefore, true, true, none, false⟩
            else ⟨frameIdx, trackerBefore, true, false, none, trackerBefore⟩
      else
        if trackerBefore then
          match trkRes with
          | some b => ⟨frameIdx, trackerBefore, false, true, some b, true⟩
          | none => ⟨frameIdx, trackerBefore, false, true, none, false⟩
        else ⟨frameIdx, trackerBefore, false, false, none, trackerBefore⟩

/-- The locating section iterated over a whole video: `oracles` lists, per
frame, the detector result and the tracker-update result that the externals
would produce if invoked.  Frame indices count up from `i`; the loop starts
with `i = 1` and no tracker. -/
def runLocator {β : Type} (fixedBox : Option β) (detectEvery : ℕ) :
    List (Option β × Option β) → ℕ → Bool → List (LocResult β)
  | [], _, _ => []
  | o :: rest, i, act =>
      let r := locateStep fixedBox detectEvery i act o.1 o.2
      r :: runLocator fixedBox detectEvery rest (i + 1) r.trackerAfter

lemma locateStep_detectCalled {β : Type} (D i : ℕ) (act : Bool)
    (detRes trkRes : Option β) :
    (locateStep (none : Option β) D i act detRes trkRes).detectCalled = true ↔
      (act = false ∨ i % max 1 D = 1) := by
  unfold locateStep
  by_cases h : act = false ∨ i % max 1 D = 1
  · rw [if_pos h]
    cases detRes <;> cases act <;> cases trkRes <;> simp_all
  · rw [if_neg h]
    cases act <;> cases trkRes <;> simp_all

lemma locateStep_frameIdx {β : Type} (fb : Option β) (D i : ℕ) (act : Bool)
    (detRes trkRes : Option β) :
    (locateStep fb D i act detRes trkRes).frameIdx = i := by
  unfold locateStep
  cases fb <;> [skip; rfl]
  by_cases h : act = false ∨ i % max 1 D = 1 <;>
    simp only [h, if_pos, if_neg, not_false_iff] <;>
    cases detRes <;> cases act <;> cases trkRes <;> simp_all

lemma locateStep_trackerBefore {β : Type} (fb : Option β) (D i : ℕ) (act : Bool)
    (detRes trkRes : Option β) :
    (locateStep fb D i act detRes trkRes).trackerBefore = act := by
  unfold locateStep
  cases fb <;> [skip; rfl]
  by_cases h : act = false ∨ i % max 1 D = 1 <;>
    simp only [h, if_pos, if_neg, not_false_iff] <;>
    cases detRes <;> cases act <;> cases trkRes <;> simp_all

lemma runLocator_mem_spec {β : Type} (D : ℕ)
    (os : List (Option β × Option β)) :
    ∀ (i : ℕ) (act : Bool) (r : LocResult β),
      r ∈ runLocator (none : Option β) D os i act →
      (r.detectCalled = true ↔ (r.trackerBefore = false ∨ r.frameIdx % max 1 D = 1)) ∧
      (r.frameIdx = i → r.trackerBefore = act) ∧ i ≤ r.frameIdx := by
  induction os with
  | nil => intro i act r hr; simp [runLocator] at hr
  | cons o rest ih =>
      intro i act r hr
      simp only [runLocator, List.mem_cons] at hr
      rcases hr with rfl | hr
      · refine ⟨?_, ?_, ?_⟩
        · rw [locateStep_detectCalled, locateStep_trackerBefore,
            locateStep_frameIdx]
        · intro _
          rw [locateStep_trackerBefore]
        · rw [locateStep_frameIdx]
      · obtain ⟨h1, _, h3⟩ := ih (i + 1) _ r hr
        exact ⟨h1, fun hidx => absurd hidx (by omega), by omega⟩

/-- C4 counterexample: at cadence `detect_every = 1` the claim fails.  Frame
2 is congruent to 1 modulo 1 (`2 % 1 = 1 % 1`), so the claim demands a
detection there; but in the code the test `frame_idx % max(1, 1) == 1` never
holds, so once the tracker initialized on frame 1 is live, the detector is
not invoked on frame 2: the run's trace is (trackerBefore, detectCalled) =
[(false, true), (true, false)]. -/
theorem locator_cadence_counterexample :
    2 % 1 = 1 % 1 ∧
    ((runLocator (none : Option Unit) 1 [(some (), none), (some (), some ())]
        1 false).map (fun r => (r.trackerBefore, r.detectCalled))) =
      [(false, true), (true, false)] :=
  ⟨rfl, rfl⟩

/-- C4 amended: in a run with no override and cadence `detect_every = D ≥ 1`
started at frame 1 with no tracker, the detector is invoked on a frame
exactly when there was no active tracker at its start or `frame_idx % D = 1`
in the code's remainder sense.  For D ≥ 2 that remainder test coincides with
congruence to 1 modulo D, so detection is invoked on frame indices 1, D+1,
2D+1, … whenever no active tracker forces an earlier detection; at D = 1 the
test never holds, so a live tracker suppresses re-detection.  Frame 1 is
always a detection frame. -/
theorem locator_cadence_amended_spec {β : Type} (D : ℕ) (hD : 1 ≤ D)
    (os : List (Option β × Option β)) :
    ∀ r ∈ runLocator (none : Option β) D os 1 false,
      (r.detectCalled = true ↔
        (r.trackerBefore = false ∨ r.frameIdx % D = 1)) ∧
      (2 ≤ D → r.frameIdx % D = 1 % D → r.detectCalled = true) ∧
      (r.frameIdx = 1 → r.detectCalled = true) := by
  intro r hr
  obtain ⟨h1, h2, _⟩ := runLocator_mem_spec D os 1 false r hr
  have hmax : max 1 D = D := by omega
  rw [hmax] at h1
  refine ⟨h1, fun h2D hm => ?_, fun hidx => h1.mpr (Or.inl (h2 hidx))⟩
  rw [Nat.one_mod_eq_one.mpr (by omega)] at hm
  exact h1.mpr (Or.inr hm)

/-- Witness for the amended C4: cadence 2, one frame, detector succeeds;
frame 1 is congruent to 1 modulo 2 and is a detection frame. -/
theorem locator_cadence_amended_spec_witness :
    (locateStep (none : Option Unit) 2 1 false (some ()) none).detectCalled =
      true := by
  have h := locator_cadence_amended_spec (β := Unit) 2 (by norm_num)
    [(some (), none)]
    (locateStep (none : Option Unit) 2 1 false (some ()) none)
    (by simp [runLocator])
  exact h.2.1 (by norm_num) (by decide)

/-- C7: on a detection-due frame (tracker active, index due) where the
detector returns nothing, the locator falls through to the tracker's update
(the tracker is invoked and its result becomes the frame's box); and whenever
the tracker's update is invoked and reports failure, the tracker is dropped
and the frame's box is absent — the step is total, no error is raised. -/
theorem locator_fallthrough_spec {β : Type} (D i : ℕ) (act : Bool)
    (detRes trkRes : Option β) :
    (i % max 1 D = 1 →
      (locateStep (none : Option β) D i true none trkRes).trackCalled = true ∧
      (locateStep (none : Option β) D i true none trkRes).box = trkRes ∧
      (locateStep (none : Option β) D i true none trkRes).trackerAfter =
        trkRes.isSome) ∧
    ((locateStep (none : Option β) D i act detRes none).trackCalled = true →
      (locateStep (none : Option β) D i act detRes none).box = none ∧
      (locateStep (none : Option β) D i act detRes none).trackerAfter = false) := by
  constructor
  · intro hdue
    unfold locateStep
    rw [if_pos (Or.inr hdue)]
    cases trkRes <;> simp
  · intro hcalled
    unfold locateStep at hcalled ⊢
    by_cases h : act = false ∨ i % max 1 D = 1
    · rw [if_pos h] at hcalled ⊢
      cases detRes with
      | some b => simp at hcalled
      | none =>
          cases act with
          | false => simp at hcalled
          | true => simp
    · rw [if_neg h] at hcalled ⊢
      cases act with
      | false => simp at hcalled
      | true => simp

/-- Witness for C7 at cadence 4, frame 5 (due: 5 % 4 = 1), tracker active,
empty detection, failing tracker update. -/
theorem locator_fallthrough_spec_witness :
    (locateStep (none : Option Unit) 4 5 true none none).trackCalled = true ∧
    (locateStep (none : Option Unit) 4 5 true none none).box = none ∧
    (locateStep (none : Option Unit) 4 5 true none none).trackerAfter = false := by
  have h := locator_fallthrough_spec (β := Unit) 4 5 true none none
  have h1 := h.1 (by decide)
  exact ⟨h1.1, (h.2 h1.1).1, (h.2 h1.1).2⟩

/-- Configuration of one `reframe_video` run, after the override dict has been
turned into the `manual_center` / `fixed_box` locals (scripts/
batch_reframe_track_yolo.py lines 176-184): an override with a `manual_center`
key yields `manualCenter = some _`, an override with a `box` key yields
`fixedBox = some _`. -/
structure PipeConfig where
  fw : ℤ
  fh : ℤ
  targetRatio : ℝ
  detectEvery : ℕ
  alpha : ℝ
  panCapPx : ℝ
  manualCenter : Option (ℝ × ℝ)
  fixedBox : Option (ℝ × ℝ × ℝ × ℝ)

/-- The loop-carried state of `reframe_video`: the tracker handle, the EMA
running value `ema.v`, and `prev_smooth_center`. -/
structure PipeState where
  trackerActive : Bool
  emaV : Option (ℝ × ℝ)
  prevCenter : Option (ℝ × ℝ)

def initState : PipeState := ⟨false, none, none⟩

/-- Everything one iteration of the frame loop produces: the locator trace,
the three centers (raw, EMA-smoothed, pan-capped) and the crop window. -/
structure FrameResult where
  detectCalled : Bool
  trackCalled : Bool
  box : Option (ℝ × ℝ × ℝ × ℝ)
  rawCenter : ℝ × ℝ
  smoothCenter : ℝ × ℝ
  cappedCenter : ℝ × ℝ
  crop : ℤ × ℤ × ℤ × ℤ

/-- One iteration of the frame loop of `reframe_video`
(scripts/batch_reframe_track_yolo.py lines 191-236): locate, derive the raw
center (box midpoint, else `manual_center`, else frame center), EMA-smooth,
pan-cap against `prev_smooth_center`, and compute the crop window. -/
noncomputable def reframeStep (cfg : PipeConfig) (frameIdx : ℕ)
    (detRes trkRes : Option (ℝ × ℝ × ℝ × ℝ)) (s : PipeState) :
    FrameResult × PipeState :=
  let loc := locateStep cfg.fixedBox cfg.detectEvery frameIdx s.trackerActive
    detRes trkRes
  let raw : ℝ × ℝ :=
    match loc.box with
    | some b => (b.1 + b.2.2.1 / 2, b.2.1 + b.2.2.2 / 2)
    | none =>
        match cfg.manualCenter with
        | some mc => mc
        | none => ((cfg.fw : ℝ) / 2, (cfg.fh : ℝ) / 2)
  let es := emaStep cfg.alpha s.emaV raw
  let smooth := es.1
  let capped : ℝ × ℝ :=
    match s.prevCenter with
    | none => smooth
    | some p => applyPanCap (some p) smooth cfg.panCapPx
  let crop := computeCropWindow cfg.fw cfg.fh cfg.targetRatio capped
  (⟨loc.detectCalled, loc.trackCalled, loc.box, raw, smooth, capped, crop⟩,
    ⟨loc.trackerAfter, es.2, some capped⟩)

/-- The frame loop over a whole video, frame indices counting up from `i`
(`reframe_video` starts at 1 with no tracker, fresh EMA and no previous
center, i.e. `initState`). -/
noncomputable def runPipe (cfg : PipeConfig) :
    List (Option (ℝ × ℝ × ℝ × ℝ) × Option (ℝ × ℝ × ℝ × ℝ)) → ℕ →
      PipeState → List FrameResult
  | [], _, _ => []
  | o :: rest, i, s =>
      let r := reframeStep cfg i o.1 o.2 s
      r.1 :: runPipe cfg rest (i + 1) r.2

lemma locateStep_fixed {β : Type} (b : β) (D i : ℕ) (act : Bool)
    (detRes trkRes : Option β) :
    locateStep (some b) D i act detRes trkRes =
      ⟨i, act, false, false, some b, act⟩ := rfl

lemma reframeStep_fst_detect (cfg : PipeConfig) (i : ℕ)
    (dr tr : Option (ℝ × ℝ × ℝ × ℝ)) (s : PipeState) :
    (reframeStep cfg i dr tr s).1.detectCalled =
      (locateStep cfg.fixedBox cfg.detectEvery i s.trackerActive dr tr).detectCalled :=
  rfl

lemma reframeStep_fst_track (cfg : PipeConfig) (i : ℕ)
    (dr tr : Option (ℝ × ℝ × ℝ × ℝ)) (s : PipeState) :
    (reframeStep cfg i dr tr s).1.trackCalled =
      (locateStep cfg.fixedBox cfg.detectEvery i s.trackerActive dr tr).trackCalled :=
  rfl

/-- C3 counterexample: a configured override that fixes only the center (a
`manual_center` override, no `box`) does not bypass the locator — the
detector is invoked on the very first frame. -/
theorem override_bypass_counterexample :
    (PipeConfig.mk 100 100 1 12 (1 / 2) 16 (some (50, 50)) none).manualCenter.isSome
      = true ∧
    ((runPipe (PipeConfig.mk 100 100 1 12 (1 / 2) 16 (some (50, 50)) none)
        [(none, none)] 1 initState).map (fun r => r.detectCalled)) = [true] :=
  ⟨rfl, rfl⟩

/-- C3 amended: only a fixed-box override bypasses the locator.  If
`fixed_box` is configured, the detector and the tracker are never invoked on
any frame of the video; a center-only override does not prevent detection or
tracking. -/
theorem fixed_box_bypass_spec (cfg : PipeConfig) (b : ℝ × ℝ × ℝ × ℝ)
    (os : List (Option (ℝ × ℝ × ℝ × ℝ) × Option (ℝ × ℝ × ℝ × ℝ)))
    (i : ℕ) (s : PipeState) (hfb : cfg.fixedBox = some b) :
    (runPipe cfg os i s).map (fun r => (r.detectCalled, r.trackCalled)) =
      List.replicate os.length (false, false) := by
  induction os generalizing i s with
  | nil => rfl
  | cons o rest ih =>
      simp only [runPipe, List.map_cons, List.length_cons, List.replicate_succ,
        List.cons.injEq]
      refine ⟨?_, ih _ _⟩
      rw [reframeStep_fst_detect, reframeStep_fst_track, hfb, locateStep_fixed]

/-- Witness for the amended C3: a fixed-box override over one frame with a
detector oracle that would have returned a box — nothing is invoked. -/
theorem fixed_box_bypass_spec_witness :
    ((runPipe (PipeConfig.mk 100 100 1 12 (1 / 2) 16 none (some (10, 10, 20, 20)))
        [(some (0, 0, 5, 5), none)] 1 initState).map
      (fun r => (r.detectCalled, r.trackCalled))) =
      List.replicate 1 (false, false) :=
  fixed_box_bypass_spec _ (10, 10, 20, 20) _ 1 initState rfl

lemma clamp_of_mem {v lo hi : ℤ} (h1 : lo ≤ v) (h2 : v ≤ hi) :
    clamp v lo hi = v := by
  unfold clamp
  omega

lemma applyPanCap_self (p : ℝ × ℝ) (cap : ℝ) :
    applyPanCap (some p) p cap = p := by
  rw [applyPanCap_some, if_pos]
  rcases le_or_lt 0 cap with h | h
  · exact Or.inl (by rw [ptDist_self]; exact h)
  · exact Or.inr (le_of_lt h)

lemma emaStep_fixed {K : Type} [LinearOrderedField K] (al : K) (p : K × K) :
    emaStep al (some p) p = (p, some p) := by
  show ((al * p.1 + (1 - al) * p.1, al * p.2 + (1 - al) * p.2),
      some (al * p.1 + (1 - al) * p.1, al * p.2 + (1 - al) * p.2)) = (p, some p)
  rw [show (al * p.1 + (1 - al) * p.1, al * p.2 + (1 - al) * p.2) = p from
    Prod.ext (by ring) (by ring)]

section CropCentered

variable {K : Type} [LinearOrderedField K] [FloorRing K]

lemma crop_x0' (fw fh : ℤ) (tr : K) (cx cy : K) :
    (computeCropWindow fw fh tr (cx, cy)).1 =
      clamp (round (cx - ((computeCropWindow fw fh tr (cx, cy)).2.2.1 : K) / 2))
        0 (fw - (computeCropWindow fw fh tr (cx, cy)).2.2.1) := rfl

lemma crop_y0' (fw fh : ℤ) (tr : K) (cx cy : K) :
    (computeCropWindow fw fh tr (cx, cy)).2.1 =
      clamp (round (cy - ((computeCropWindow fw fh tr (cx, cy)).2.2.2 : K) / 2))
        0 (fh - (computeCropWindow fw fh tr (cx, cy)).2.2.2) := rfl

/-- Cropping at the frame's geometric center needs no clamping: the crop
window's center stays within half a pixel of the frame center on each axis. -/
lemma crop_centered (fw fh : ℤ) (tr : K)
    (hfw : 0 < fw) (hfh : 0 < fh) (htr : 0 < tr) :
    |((computeCropWindow fw fh tr ((fw : K) / 2, (fh : K) / 2)).1 : K) +
        ((computeCropWindow fw fh tr ((fw : K) / 2, (fh : K) / 2)).2.2.1 : K) / 2 -
        (fw : K) / 2| ≤ 1 / 2 ∧
    |((computeCropWindow fw fh tr ((fw : K) / 2, (fh : K) / 2)).2.1 : K) +
        ((computeCropWindow fw fh tr ((fw : K) / 2, (fh : K) / 2)).2.2.2 : K) / 2 -
        (fh : K) / 2| ≤ 1 / 2 := by
  obtain ⟨hcw0, hcwle, hch0, hchle⟩ :=
    crop_dims_bounds fw fh tr ((fw : K) / 2, (fh : K) / 2) hfw hfh htr
  constructor
  · rw [crop_x0']
    set cw := (computeCropWindow fw fh tr ((fw : K) / 2, (fh : K) / 2)).2.2.1
      with hcwdef
    have hcwK : (cw : K) ≤ (fw : K) := by exact_mod_cast hcwle
    have hm0 : (0 : K) ≤ (fw : K) / 2 - (cw : K) / 2 := by linarith
    have hmle : (fw : K) / 2 - (cw : K) / 2 ≤ ((fw - cw : ℤ) : K) := by
      push_cast
      linarith
    have h1 : 0 ≤ round ((fw : K) / 2 - (cw : K) / 2) := round_nonneg hm0
    have h2 : round ((fw : K) / 2 - (cw : K) / 2) ≤ fw - cw := round_le_int hmle
    rw [clamp_of_mem h1 h2]
    have habs := abs_sub_round ((fw : K) / 2 - (cw : K) / 2)
    rw [abs_sub_comm] at habs
    calc |((round ((fw : K) / 2 - (cw : K) / 2) : ℤ) : K) + (cw : K) / 2 -
            (fw : K) / 2|
        = |((round ((fw : K) / 2 - (cw : K) / 2) : ℤ) : K) -
            ((fw : K) / 2 - (cw : K) / 2)| := by
          rw [show ((round ((fw : K) / 2 - (cw : K) / 2) : ℤ) : K) + (cw : K) / 2 -
              (fw : K) / 2 = ((round ((fw : K) / 2 - (cw : K) / 2) : ℤ) : K) -
              ((fw : K) / 2 - (cw : K) / 2) from by ring]
      _ ≤ 1 / 2 := habs
  · rw [crop_y0']
    set ch := (computeCropWindow fw fh tr ((fw : K) / 2, (fh : K) / 2)).2.2.2
      with hchdef
    have hchK : (ch : K) ≤ (fh : K) := by exact_mod_cast hchle
    have hm0 : (0 : K) ≤ (fh : K) / 2 - (ch : K) / 2 := by linarith
    have hmle : (fh : K) / 2 - (ch : K) / 2 ≤ ((fh - ch : ℤ) : K) := by
      push_cast
      linarith
    have h1 : 0 ≤ round ((fh : K) / 2 - (ch : K) / 2) := round_nonneg hm0
    have h2 : round ((fh : K) / 2 - (ch : K) / 2) ≤ fh - ch := round_le_int hmle
    rw [clamp_of_mem h1 h2]
    have habs := abs_sub_round ((fh : K) / 2 - (ch : K) / 2)
    rw [abs_sub_comm] at habs
    calc |((round ((fh : K) / 2 - (ch : K) / 2) : ℤ) : K) + (ch : K) / 2 -
            (fh : K) / 2|
        = |((round ((fh : K) / 2 - (ch : K) / 2) : ℤ) : K) -
            ((fh : K) / 2 - (ch : K) / 2)| := by
          rw [show ((round ((fh : K) / 2 - (ch : K) / 2) : ℤ) : K) + (ch : K) / 2 -
              (fh : K) / 2 = ((round ((fh : K) / 2 - (ch : K) / 2) : ℤ) : K) -
              ((fh : K) / 2 - (ch : K) / 2) from by ring]
      _ ≤ 1 / 2 := habs

end CropCentered

/-- With no override, no detection and no tracker success, one loop iteration
from a neutral state produces the geometric frame center at every stage and
returns to the neutral steady state. -/
lemma reframeStep_neutral (cfg : PipeConfig) (i : ℕ) (s : PipeState)
    (hfb : cfg.fixedBox = none) (hmc : cfg.manualCenter = none)
    (hact : s.trackerActive = false)
    (hema : s.emaV = none ∨ s.emaV = some ((cfg.fw : ℝ) / 2, (cfg.fh : ℝ) / 2))
    (hprev : s.prevCenter = none ∨
      s.prevCenter = some ((cfg.fw : ℝ) / 2, (cfg.fh : ℝ) / 2)) :
    reframeStep cfg i none none s =
      (⟨true, false, none, ((cfg.fw : ℝ) / 2, (cfg.fh : ℝ) / 2),
          ((cfg.fw : ℝ) / 2, (cfg.fh : ℝ) / 2),
          ((cfg.fw : ℝ) / 2, (cfg.fh : ℝ) / 2),
          computeCropWindow cfg.fw cfg.fh cfg.targetRatio
            ((cfg.fw : ℝ) / 2, (cfg.fh : ℝ) / 2)⟩,
        ⟨false, some ((cfg.fw : ℝ) / 2, (cfg.fh : ℝ) / 2),
          some ((cfg.fw : ℝ) / 2, (cfg.fh : ℝ) / 2)⟩) := by
  obtain ⟨fw, fh, tr, D, al, cap, mc, fb⟩ := cfg
  obtain ⟨act, ev, pc⟩ := s
  dsimp only at hfb hmc hact hema hprev ⊢
  subst hfb
  subst hmc
  subst hact
  rcases hema with rfl | rfl <;> rcases hprev with rfl | rfl
  · rfl
  · show ((⟨true, false, none, ((fw : ℝ) / 2, (fh : ℝ) / 2),
        ((fw : ℝ) / 2, (fh : ℝ) / 2),
        applyPanCap (some ((fw : ℝ) / 2, (fh : ℝ) / 2))
          ((fw : ℝ) / 2, (fh : ℝ) / 2) cap,
        computeCropWindow fw fh tr
          (applyPanCap (some ((fw : ℝ) / 2, (fh : ℝ) / 2))
            ((fw : ℝ) / 2, (fh : ℝ) / 2) cap)⟩ : FrameResult),
      (⟨false, some ((fw : ℝ) / 2, (fh : ℝ) / 2),
        some (applyPanCap (some ((fw : ℝ) / 2, (fh : ℝ) / 2))
          ((fw : ℝ) / 2, (fh : ℝ) / 2) cap)⟩ : PipeState)) = _
    rw [applyPanCap_self]
  · show ((⟨true, false, none, ((fw : ℝ) / 2, (fh : ℝ) / 2),
        (emaStep al (some ((fw : ℝ) / 2, (fh : ℝ) / 2))
          ((fw : ℝ) / 2, (fh : ℝ) / 2)).1,
        (emaStep al (some ((fw : ℝ) / 2, (fh : ℝ) / 2))
          ((fw : ℝ) / 2, (fh : ℝ) / 2)).1,
        computeCropWindow fw fh tr
          (emaStep al (some ((fw : ℝ) / 2, (fh : ℝ) / 2))
            ((fw : ℝ) / 2, (fh : ℝ) / 2)).1⟩ : FrameResult),
      (⟨false, (emaStep al (some ((fw : ℝ) / 2, (fh : ℝ) / 2))
          ((fw : ℝ) / 2, (fh : ℝ) / 2)).2,
        some (emaStep al (some ((fw : ℝ) / 2, (fh : ℝ) / 2))
          ((fw : ℝ) / 2, (fh : ℝ) / 2)).1⟩ : PipeState)) = _
    rw [emaStep_fixed]
  · show ((⟨true, false, none, ((fw : ℝ) / 2, (fh : ℝ) / 2),
        (emaStep al (some ((fw : ℝ) / 2, (fh : ℝ) / 2))
          ((fw : ℝ) / 2, (fh : ℝ) / 2)).1,
        applyPanCap (some ((fw : ℝ) / 2, (fh : ℝ) / 2))
          (emaStep al (some ((fw : ℝ) / 2, (fh : ℝ) / 2))
            ((fw : ℝ) / 2, (fh : ℝ) / 2)).1 cap,
        computeCropWindow fw fh tr
          (applyPanCap (some ((fw : ℝ) / 2, (fh : ℝ) / 2))
            (emaStep al (some ((fw : ℝ) / 2, (fh : ℝ) / 2))
              ((fw : ℝ) / 2, (fh : ℝ) / 2)).1 cap)⟩ : FrameResult),
      (⟨false, (emaStep al (some ((fw : ℝ) / 2, (fh : ℝ) / 2))
          ((fw : ℝ) / 2, (fh : ℝ) / 2)).2,
        some (applyPanCap (some ((fw : ℝ) / 2, (fh : ℝ) / 2))
          (emaStep al (some ((fw : ℝ) / 2, (fh : ℝ) / 2))
            ((fw : ℝ) / 2, (fh : ℝ) / 2)).1 cap)⟩ : PipeState)) = _
    rw [emaStep_fixed]
    rw [show ((((fw : ℝ) / 2, (fh : ℝ) / 2),
        some ((fw : ℝ) / 2, (fh : ℝ) / 2)).1 : ℝ × ℝ) =
      ((fw : ℝ) / 2, (fh : ℝ) / 2) from rfl]
    rw [applyPanCap_self]

lemma runPipe_neutral (cfg : PipeConfig)
    (hfb : cfg.fixedBox = none) (hmc : cfg.manualCenter = none)
    (hfw : 0 < cfg.fw) (hfh : 0 < cfg.fh) (htr : 0 < cfg.targetRatio) :
    ∀ (os : List (Option (ℝ × ℝ × ℝ × ℝ) × Option (ℝ × ℝ × ℝ × ℝ))),
      (∀ e ∈ os, e = (none, none)) →
      ∀ (i : ℕ) (s : PipeState), s.trackerActive = false →
        (s.emaV = none ∨ s.emaV = some ((cfg.fw : ℝ) / 2, (cfg.fh : ℝ) / 2)) →
        (s.prevCenter = none ∨
          s.prevCenter = some ((cfg.fw : ℝ) / 2, (cfg.fh : ℝ) / 2)) →
        ∀ r ∈ runPipe cfg os i s,
          r.rawCenter = ((cfg.fw : ℝ) / 2, (cfg.fh : ℝ) / 2) ∧
          |(r.crop.1 : ℝ) + (r.crop.2.2.1 : ℝ) / 2 - (cfg.fw : ℝ) / 2| ≤ 1 / 2 ∧
          |(r.crop.2.1 : ℝ) + (r.crop.2.2.2 : ℝ) / 2 - (cfg.fh : ℝ) / 2| ≤ 1 / 2 := by
  intro os
  induction os with
  | nil =>
      intro _ i s _ _ _ r hr
      simp [runPipe] at hr
  | cons o rest ih =>
      intro hos i s hact hema hprev r hr
      have ho : o = (none, none) := hos o (List.mem_cons_self o rest)
      subst ho
      have hstep := reframeStep_neutral cfg i s hfb hmc hact hema hprev
      simp only [runPipe, List.mem_cons] at hr
      rcases hr with rfl | hr
      · rw [hstep]
        refine ⟨rfl, ?_, ?_⟩
        · exact (crop_centered cfg.fw cfg.fh cfg.targetRatio hfw hfh htr).1
        · exact (crop_centered cfg.fw cfg.fh cfg.targetRatio hfw hfh htr).2
      · rw [hstep] at hr
        exact ih (fun e he => hos e (List.mem_cons_of_mem _ he)) (i + 1) _
          rfl (Or.inr rfl) (Or.inr rfl) r hr

/-- C8: for a video with no override whose detector never returns a box and
whose tracker never succeeds, every frame's raw center is the frame's
geometric center, and every frame's crop window is centered on it up to the
half-pixel rounding of the window position (no clamping occurs). -/
theorem neutral_center_spec (cfg : PipeConfig)
    (os : List (Option (ℝ × ℝ × ℝ × ℝ) × Option (ℝ × ℝ × ℝ × ℝ)))
    (hfb : cfg.fixedBox = none) (hmc : cfg.manualCenter = none)
    (hos : ∀ e ∈ os, e = (none, none))
    (hfw : 0 < cfg.fw) (hfh : 0 < cfg.fh) (htr : 0 < cfg.targetRatio) :
    ∀ r ∈ runPipe cfg os 1 initState,
      r.rawCenter = ((cfg.fw : ℝ) / 2, (cfg.fh : ℝ) / 2) ∧
      |(r.crop.1 : ℝ) + (r.crop.2.2.1 : ℝ) / 2 - (cfg.fw : ℝ) / 2| ≤ 1 / 2 ∧
      |(r.crop.2.1 : ℝ) + (r.crop.2.2.2 : ℝ) / 2 - (cfg.fh : ℝ) / 2| ≤ 1 / 2 :=
  runPipe_neutral cfg hfb hmc hfw hfh htr os hos 1 initState rfl
    (Or.inl rfl) (Or.inl rfl)

/-- Witness for C8: a single frame of a 4x4 video, square target, detector
and tracker both silent — the raw center is (2, 2). -/
theorem neutral_center_spec_witness :
    ((reframeStep (PipeConfig.mk 4 4 1 12 (1 / 2) 16 none none) 1 none none
        initState).1).rawCenter = (((4 : ℤ) : ℝ) / 2, ((4 : ℤ) : ℝ) / 2) := by
  have h := neutral_center_spec (PipeConfig.mk 4 4 1 12 (1 / 2) 16 none none)
    [(none, none)] rfl rfl (by simp) (by norm_num) (by norm_num) (by norm_num)
  exact (h _ (by simp [runPipe])).1

/-- Python `str.strip()`: drop whitespace from both ends of the text (texts
are modelled as character lists so that concrete instances evaluate). -/
def stripped (out : List Char) : List Char :=
  ((out.dropWhile Char.isWhitespace).reverse.dropWhile Char.isWhitespace).reverse

/-- Python `_has_audio(src_path)` (scripts/batch_reframe_track_yolo.py lines
64-73, identical in batch_reframe_track.py lines 85-100).  `probe` is the
outcome of the external `ffprobe` subprocess: `none` models a raised
exception, `some out` a completed call whose stdout is `out`; the Python
returns `bool(r.stdout.strip())`, i.e. whether anything remains after
stripping. -/
def hasAudio (probe : Option (List Char)) : Bool :=
  match probe with
  | none => false
  | some out => !(stripped out).isEmpty

/-- Python `_remux_audio(src_path, video_no_audio, out_path)`
(scripts/batch_reframe_track_yolo.py lines 75-100, identical in
batch_reframe_track.py lines 102-132), expressed as the content that ends up
at `out_path`.  If `_has_audio(src_path)`, the two `ffmpeg` subprocess calls
(audio extract, then mux) run inside `try`: `muxResult = some m` models both
succeeding with muxed content `m`, `muxResult = none` models any exception,
recovered by `video_no_audio.replace(out_path)`; with no audio the silent
file is moved to the output unchanged. -/
def remuxAudio {C : Type} (probe : Option (List Char)) (muxResult : Option C)
    (silent : C) : C :=
  if hasAudio probe then
    match muxResult with
    | some m => m
    | none => silent
  else silent

/-- C9: if the remux step fails internally, the silent video is used as the
final output instead of failing the job; and if the source has no audio
track, the final output is the silent intermediate itself, unchanged. -/
theorem remux_best_effort_spec {C : Type} (probe : Option (List Char))
    (muxResult : Option C) (silent : C) :
    remuxAudio probe none silent = silent ∧
    (hasAudio probe = false → remuxAudio probe muxResult silent = silent) := by
  constructor
  · cases h : hasAudio probe <;> simp [remuxAudio, h]
  · intro h
    simp [remuxAudio, h]

/-- Witness for C9: an audio-less source passes the silent content through
even when the mux oracle would succeed; a failing mux falls back to the
silent content. -/
theorem remux_best_effort_spec_witness :
    remuxAudio (some []) (some 7) (3 : ℕ) = 3 ∧
    remuxAudio (some ['0']) none (3 : ℕ) = 3 :=
  ⟨(remux_best_effort_spec (some []) (some 7) (3 : ℕ)).2 (by decide),
    (remux_best_effort_spec (some ['0']) none (3 : ℕ)).1⟩

/-- C10 (implicit): `_has_audio` returns false when the ffprobe invocation
raises any exception and when ffprobe reports no audio streams (empty or
whitespace-only stdout); in both cases the remux step promotes the silent
video unchanged, so a broken probe environment never fails a job. -/
theorem probe_failure_silent_spec {C : Type} (s : List Char) (mr : Option C)
    (silent : C) (hs : stripped s = []) :
    hasAudio none = false ∧
    hasAudio (some s) = false ∧
    remuxAudio none mr silent = silent ∧
    remuxAudio (some s) mr silent = silent := by
  have h1 : hasAudio none = false := rfl
  have h2 : hasAudio (some s) = false := by
    simp [hasAudio, hs]
  exact ⟨h1, h2, by simp [remuxAudio, h1], by simp [remuxAudio, h2]⟩

/-- Witness for C10: a raised probe and an empty-stdout probe both yield
silent passthrough. -/
theorem probe_failure_silent_spec_witness :
    hasAudio none = false ∧
    remuxAudio none (some 5) (2 : ℕ) = 2 ∧
    remuxAudio (some [' ']) (some 5) (2 : ℕ) = 2 := by
  have h := probe_failure_silent_spec [' '] (some 5) (2 : ℕ) (by decide)
  exact ⟨h.1, h.2.2.1, h.2.2.2⟩

end Resizer
